import Mathlib

/-!
Verification of the marxiv script (marxiv.py): a shallow embedding of the
candidate-file selection heuristic, the download/extract step and the
top-level run, with theorems about the selection ranking, tie-breaking,
error propagation and the observable effects of a run.

Filesystem contents, the network response and the external converter are
modelled as explicit inputs; printing, process exit and subprocess
invocations are modelled as explicit outputs.
-/

/-! ## String primitives modelling the Python string operations used -/

/-- Membership test for a character-list pattern inside a character list;
models the Python expression `pat in s`. -/
def hasSub (pat : List Char) : List Char → Bool
  | [] => pat.isEmpty
  | c :: rest => pat.isPrefixOf (c :: rest) || hasSub pat rest

/-- Models the Python expression `pat in s` on strings. -/
def strMem (pat s : String) : Bool := hasSub pat.toList s.toList

/-- Models Python `s.endswith(suf)`. -/
def strEndsWith (s suf : String) : Bool := List.isSuffixOf suf.toList s.toList

/-- Models Python `s.lower()` (ASCII lowering, as used on file names). -/
def lowerStr (s : String) : String := String.mk (s.toList.map Char.toLower)

/-- Helper for `countOcc`: scans left to right; `skip` is the number of
characters still inside the previously matched occurrence, which are not
allowed to start a new one (Python `str.count` counts non-overlapping
occurrences). -/
def countOccAux (pat : List Char) : List Char → Nat → Nat
  | [], _ => if pat.isEmpty then 1 else 0
  | _ :: rest, Nat.succ skip => countOccAux pat rest skip
  | c :: rest, 0 =>
    if pat.isPrefixOf (c :: rest) then
      countOccAux pat rest (pat.length - 1) + 1
    else
      countOccAux pat rest 0

/-- Models Python `s.count(pat)` on character lists: the number of
non-overlapping occurrences of `pat` in `s`, scanning from the left. -/
def countOcc (pat s : List Char) : Nat := countOccAux pat s 0

/-- Models Python `s.count(pat)` on strings. -/
def pyCount (s pat : String) : Nat := countOcc pat.toList s.toList

/-- Spec-side notion of occurrence count: the number of positions of `s`
at which `pat` occurs as a substring. -/
def countPos (pat s : List Char) : Nat :=
  (List.range s.length).countP (fun i => pat.isPrefixOf (List.drop i s))

/-- A pattern is border-free when no proper non-trivial suffix-aligned copy
of it can overlap a copy of itself; for such patterns every occurrence is
counted by the non-overlapping scan. -/
def borderFreeB (pat : List Char) : Bool :=
  (List.range pat.length).all
    (fun j => j == 0 || !(List.drop j pat == List.take (pat.length - j) pat))

/-- Models Python `os.path.join(a, b)` for a relative `b`. -/
def joinPath (a b : String) : String := a ++ "/" ++ b

/-! ## Data model -/

deriving instance DecidableEq for Except

/-- Exceptions of the Python code that the claims are about. -/
inductive PyExn where
  | httpError
  | tarReadError
  | decodeError
deriving DecidableEq

/-- One file yielded by the `os.walk` scan, in discovery order: the
directory it lives in, its bare name, and the outcome of reading its text
(reading may raise a decode error). -/
structure FSEntry where
  root : String
  name : String
  content : Except PyExn String
deriving DecidableEq

/-- One entry of the `candidates` list built by `find_main_latex_file`:
the tuple `(file_path, heuristic1, heuristic2, heuristic3)`. -/
structure Cand where
  path : String
  h1 : Bool
  h2 : Bool
  h3 : Nat
deriving DecidableEq

/-- The candidate tuple computed for a `.tex` file whose text was read. -/
def texCand (e : FSEntry) (content : String) : Cand :=
  { path := joinPath e.root e.name
    h1 := strMem "main" (lowerStr e.name)
    h2 := strMem "\\documentclass" content
    h3 := pyCount content "\\input" + pyCount content "\\include" }

/-- The loop of `find_main_latex_file`: walk the entries in discovery
order, keep the files ending in `.tex`, read each and build its candidate
tuple; a read failure aborts the whole loop with that exception. -/
def buildCandidates : List FSEntry → Except PyExn (List Cand)
  | [] => Except.ok []
  | e :: rest =>
    if strEndsWith e.name ".tex" then
      match e.content with
      | Except.error ex => Except.error ex
      | Except.ok content =>
        match buildCandidates rest with
        | Except.error ex => Except.error ex
        | Except.ok cs => Except.ok (texCand e content :: cs)
    else
      buildCandidates rest

/-- The Python sort key `(sum(x[1:3]), x[3])`: booleans sum as integers. -/
def boolSum (c : Cand) : Nat := (if c.h1 then 1 else 0) + (if c.h2 then 1 else 0)

/-- The sort key of a candidate. -/
def candKey (c : Cand) : Nat × Nat := (boolSum c, c.h3)

/-- Strict lexicographic order on sort keys (Python tuple `<`). -/
def pairLt (a b : Nat × Nat) : Bool :=
  decide (a.1 < b.1) || ((a.1 == b.1) && decide (a.2 < b.2))

/-- Lexicographic order on sort keys (Python tuple `<=`). -/
def pairLe (a b : Nat × Nat) : Bool :=
  decide (a.1 < b.1) || ((a.1 == b.1) && decide (a.2 ≤ b.2))

/-- Stable descending insertion: `x` is placed before the first element
whose key is less than or equal to its own, so an element earlier in the
original list precedes equal-key elements inserted before it. -/
def insertDesc (x : Cand) : List Cand → List Cand
  | [] => [x]
  | y :: ys =>
    if pairLe (candKey y) (candKey x) then x :: y :: ys
    else y :: insertDesc x ys

/-- Models `candidates.sort(key=lambda x: (sum(x[1:3]), x[3]), reverse=True)`:
a stable sort, descending in the key, ties keeping discovery order. -/
def sortCands : List Cand → List Cand
  | [] => []
  | x :: xs => insertDesc x (sortCands xs)

/-- `find_main_latex_file`: build the candidates from the walked entries,
sort them and return the path of the first, or `none` when there are no
candidates; a read failure propagates as the exception. -/
def find_main_latex_file (files : List FSEntry) : Except PyExn (Option String) :=
  match buildCandidates files with
  | Except.error ex => Except.error ex
  | Except.ok cands => Except.ok (((sortCands cands).head?).map Cand.path)

/-! ## Fetching, downloading, converting and the top-level run -/

/-- What the network does for this run: `urlopen` either raises
`HTTPError` or returns a response with a status, a payload that is or is
not a readable tar archive, and on success the archive entries that
extraction writes into the output directory. -/
inductive FetchOutcome where
  | httpError
  | response (status : Nat) (validTar : Bool) (entries : List FSEntry)
deriving DecidableEq

/-- The messages the script prints, as structured data. -/
inductive Msg where
  | failedDownload
  | errorDownloading (arxiv_id : String)
  | errorCouldntFetch (arxiv_id : String)
  | couldntFindSource (arxiv_id : String)
  | converted (arxiv_id : String) (output_file : String)
  | fetched (arxiv_id : String)
deriving DecidableEq

/-- Whether a printed message names the given arXiv identifier. -/
def msgNamesId (m : Msg) (arxiv_id : String) : Bool :=
  match m with
  | Msg.failedDownload => false
  | Msg.errorDownloading i => i == arxiv_id
  | Msg.errorCouldntFetch i => i == arxiv_id
  | Msg.couldntFindSource i => i == arxiv_id
  | Msg.converted i _ => i == arxiv_id
  | Msg.fetched i => i == arxiv_id

/-- `fetch_url`: on `HTTPError` it prints a failure message and re-raises;
otherwise it returns the response. -/
def fetch_url (f : FetchOutcome) :
    List Msg × Except PyExn (Nat × Bool × List FSEntry) :=
  match f with
  | FetchOutcome.httpError => ([Msg.failedDownload], Except.error PyExn.httpError)
  | FetchOutcome.response st v es => ([], Except.ok (st, v, es))

/-- The observable outcome of `download_arxiv_source`: what it printed,
its return value or raised exception, and the files extraction wrote into
the output directory. -/
structure DlOut where
  printed : List Msg
  result : Except PyExn (Option String)
  extracted : List FSEntry
deriving DecidableEq

/-- `download_arxiv_source`: fetch the URL; on status 200 open the
response stream as a tar archive and extract all entries into the output
directory, returning the path `output_dir/{arxiv_id}.tar.gz` (a path that
is never itself written); a non-archive payload raises `tarfile.ReadError`;
a non-200 status prints an error and returns `None`. -/
def download_arxiv_source (arxiv_id output_dir : String) (f : FetchOutcome) : DlOut :=
  match fetch_url f with
  | (msgs, Except.error e) => { printed := msgs, result := Except.error e, extracted := [] }
  | (msgs, Except.ok (st, v, es)) =>
    if st == 200 then
      if v then
        { printed := msgs
          result := Except.ok (some (joinPath output_dir (arxiv_id ++ ".tar.gz")))
          extracted := es }
      else
        { printed := msgs, result := Except.error PyExn.tarReadError, extracted := [] }
    else
      { printed := msgs ++ [Msg.errorDownloading arxiv_id]
        result := Except.ok none
        extracted := [] }

/-- The full paths of the files written by a download. -/
def writtenPaths (d : DlOut) : List String :=
  d.extracted.map (fun e => joinPath e.root e.name)

/-- `get_extension`: map a format name to a file extension. -/
def get_extension (filetype : String) : String :=
  match filetype with
  | "markdown" | "mardown_mmd" | "gfm" => "md"
  | _ => "txt"

/-- Python truthiness of a `str | None` value: `None` and the empty
string are falsy. -/
def pyTruthy : Option String → Bool
  | none => false
  | some s => s != ""

/-- Python `a or b` on `str | None` values. -/
def pyOrStr (a b : Option String) : Option String :=
  if pyTruthy a then a else b

/-- `convert_to_markdown`: the argument list passed to the converter
subprocess; an `-o` destination under the current working directory is
appended only when an output file was given. -/
def convert_to_markdown (source_file working_dir : String) (output_file : Option String)
    (output_format : String) (cwd : String) : List String :=
  let args := ["pandoc", "-s", source_file, "-t", output_format, "--wrap=none"]
  if pyTruthy output_file then args ++ ["-o", joinPath cwd (output_file.getD "")]
  else args

/-- `subprocess.run`: runs the converter and returns its exit status,
which the caller discards. -/
def subprocess_run (args : List String) (working_dir : String) (status : Nat) : Nat :=
  status

/-- How a run of `main` terminates: an explicit `sys.exit` / normal
completion with an exit code, or an exception propagating uncaught out of
`main` to the interpreter. -/
inductive RunResult where
  | exited (code : Nat)
  | uncaught (e : PyExn)
deriving DecidableEq

/-- The observable outcome of a run of `main`: how it terminated, what it
printed on stdout and stderr, and the subprocess invocations it made. -/
structure RunOut where
  result : RunResult
  stdout : List Msg
  stderr : List Msg
  procs : List (List String)
deriving DecidableEq

/-- The part of `main` after `find_main_latex_file` returned (or raised):
choose `main_file` with Python `or`, then either convert and report, or
report failure and exit 1. -/
def afterFind (arxiv_id : String) (output_file : Option String) (fmt temp_dir cwd : String)
    (cst : Nat) (printed : List Msg) (source_contents : Option String) :
    Except PyExn (Option String) → RunOut
  | Except.error e => ⟨RunResult.uncaught e, printed, [], []⟩
  | Except.ok found =>
    if pyTruthy (pyOrStr found source_contents) then
      let args := convert_to_markdown ((pyOrStr found source_contents).getD "")
        temp_dir output_file fmt cwd
      let _ret := subprocess_run args temp_dir cst
      if pyTruthy output_file then
        ⟨RunResult.exited 0, printed, [Msg.converted arxiv_id (output_file.getD "")], [args]⟩
      else
        ⟨RunResult.exited 0, printed, [Msg.fetched arxiv_id], [args]⟩
    else
      ⟨RunResult.exited 1, printed ++ [Msg.couldntFindSource arxiv_id], [], []⟩

/-- The part of `main` after `download_arxiv_source` finished: only
`tarfile.ReadError` is caught (exit 1 with a message); any other exception
propagates uncaught; otherwise the selector runs on the extracted files. -/
def afterDownload (arxiv_id : String) (output_file : Option String) (fmt temp_dir cwd : String)
    (cst : Nat) (dl : DlOut) : RunOut :=
  match dl.result with
  | Except.error PyExn.tarReadError =>
    ⟨RunResult.exited 1, dl.printed ++ [Msg.errorCouldntFetch arxiv_id], [], []⟩
  | Except.error e => ⟨RunResult.uncaught e, dl.printed, [], []⟩
  | Except.ok source_contents =>
    afterFind arxiv_id output_file fmt temp_dir cwd cst dl.printed source_contents
      (find_main_latex_file dl.extracted)

/-- `main`: download into the temporary directory, then select and
convert; `cst` is the exit status the external converter would return. -/
def mainRun (arxiv_id : String) (output_file : Option String) (fmt temp_dir cwd : String)
    (fetch : FetchOutcome) (cst : Nat) : RunOut :=
  afterDownload arxiv_id output_file fmt temp_dir cwd cst
    (download_arxiv_source arxiv_id temp_dir fetch)

/-! ## Lemmas about the key order -/

theorem pairLe_iff (a b : Nat × Nat) :
    pairLe a b = true ↔ (a.1 < b.1 ∨ (a.1 = b.1 ∧ a.2 ≤ b.2)) := by
  simp [pairLe]

theorem pairLt_iff (a b : Nat × Nat) :
    pairLt a b = true ↔ (a.1 < b.1 ∨ (a.1 = b.1 ∧ a.2 < b.2)) := by
  simp [pairLt]

theorem pairLe_refl (a : Nat × Nat) : pairLe a a = true := by
  rw [pairLe_iff]; omega

theorem pairLe_trans {a b c : Nat × Nat} (h1 : pairLe a b = true)
    (h2 : pairLe b c = true) : pairLe a c = true := by
  rw [pairLe_iff] at h1 h2 ⊢; omega

theorem pairLe_of_not_pairLe {a b : Nat × Nat} (h : pairLe a b = false) :
    pairLe b a = true := by
  rw [Bool.eq_false_iff, Ne, pairLe_iff] at h
  rw [pairLe_iff]; omega

theorem not_pairLe_of_pairLt {a b : Nat × Nat} (h : pairLt a b = true) :
    pairLe b a = false := by
  rw [pairLt_iff] at h
  rw [Bool.eq_false_iff, Ne, pairLe_iff]; omega

/-! ## Lemmas about the stable descending sort -/

theorem mem_insertDesc {z x : Cand} : ∀ {l : List Cand},
    z ∈ insertDesc x l ↔ (z = x ∨ z ∈ l) := by
  intro l
  induction l with
  | nil => simp [insertDesc]
  | cons y ys ih =>
    rw [insertDesc]
    by_cases h : pairLe (candKey y) (candKey x) = true
    · simp [h]
    · simp only [Bool.not_eq_true] at h
      simp [h, ih]
      tauto

theorem mem_sortCands {z : Cand} : ∀ {l : List Cand},
    z ∈ sortCands l ↔ z ∈ l := by
  intro l
  induction l with
  | nil => simp [sortCands]
  | cons x xs ih => simp [sortCands, mem_insertDesc, ih]

theorem sortCands_head_max : ∀ (l : List Cand), l ≠ [] →
    ∃ c, (sortCands l).head? = some c ∧ c ∈ l ∧
      ∀ d ∈ l, pairLe (candKey d) (candKey c) = true := by
  intro l
  induction l with
  | nil => intro h; exact absurd rfl h
  | cons x xs ih =>
    intro _
    by_cases hxs : xs = []
    · subst hxs
      refine ⟨x, rfl, List.mem_cons_self x [], ?_⟩
      intro d hd
      rw [List.mem_singleton] at hd
      rw [hd]; exact pairLe_refl _
    · obtain ⟨c, hc1, hc2, hc3⟩ := ih hxs
      cases hsx : sortCands xs with
      | nil => rw [hsx] at hc1; simp at hc1
      | cons c0 t =>
        rw [hsx] at hc1
        simp only [List.head?_cons, Option.some.injEq] at hc1
        subst hc1
        have hgoal : sortCands (x :: xs) = insertDesc x (sortCands xs) := rfl
        rw [hgoal, hsx, insertDesc]
        by_cases hcx : pairLe (candKey c0) (candKey x) = true
        · rw [if_pos hcx]
          refine ⟨x, rfl, List.mem_cons_self x xs, ?_⟩
          intro d hd
          rcases List.mem_cons.mp hd with h | h
          · rw [h]; exact pairLe_refl _
          · exact pairLe_trans (hc3 d h) hcx
        · rw [if_neg hcx]
          refine ⟨c0, rfl, List.mem_cons_of_mem x hc2, ?_⟩
          intro d hd
          rcases List.mem_cons.mp hd with h | h
          · rw [h]
            exact pairLe_of_not_pairLe (Bool.eq_false_iff.mpr hcx)
          · exact hc3 d h

theorem sortCands_head_firstMax : ∀ (l1 : List Cand) (c : Cand) (l2 : List Cand),
    (∀ d ∈ l1, pairLt (candKey d) (candKey c) = true) →
    (∀ d ∈ l2, pairLe (candKey d) (candKey c) = true) →
    (sortCands (l1 ++ c :: l2)).head? = some c := by
  intro l1
  induction l1 with
  | nil =>
    intro c l2 _ h2
    show (insertDesc c (sortCands l2)).head? = some c
    cases hsl : sortCands l2 with
    | nil => rfl
    | cons m t =>
      have hm : m ∈ l2 := by
        rw [← mem_sortCands (l := l2), hsl]
        exact List.mem_cons_self m t
      rw [insertDesc, if_pos (h2 m hm)]
      rfl
  | cons a l1 ih =>
    intro c l2 h1 h2
    have ha : pairLt (candKey a) (candKey c) = true := h1 a (List.mem_cons_self a l1)
    have hrest := ih c l2 (fun d hd => h1 d (List.mem_cons_of_mem a hd)) h2
    show (insertDesc a (sortCands (l1 ++ c :: l2))).head? = some c
    cases hsl : sortCands (l1 ++ c :: l2) with
    | nil => rw [hsl] at hrest; simp at hrest
    | cons m t =>
      rw [hsl] at hrest
      simp only [List.head?_cons, Option.some.injEq] at hrest
      subst hrest
      rw [insertDesc, if_neg (by rw [not_pairLe_of_pairLt ha]; simp)]
      rfl

/-! ## Lemmas about occurrence counting -/

theorem isPrefixOf_eq_take : ∀ (l s : List Char),
    l.isPrefixOf s = true ↔ List.take l.length s = l := by
  intro l
  induction l with
  | nil => intro s; simp [List.isPrefixOf]
  | cons a as ih =>
    intro s
    cases s with
    | nil => simp [List.isPrefixOf]
    | cons b bs =>
      simp only [List.isPrefixOf, Bool.and_eq_true, beq_iff_eq, ih, List.length_cons,
        List.take_succ_cons, List.cons.injEq]
      constructor
      · rintro ⟨h1, h2⟩; exact ⟨h1.symm, h2⟩
      · rintro ⟨h1, h2⟩; exact ⟨h1.symm, h2⟩

theorem noOverlap_of_borderFree (pat : List Char) (hbf : borderFreeB pat = true)
    (s : List Char) (hpre : pat.isPrefixOf s = true)
    (j : Nat) (hj0 : 0 < j) (hjL : j < pat.length) :
    pat.isPrefixOf (List.drop j s) = false := by
  by_contra hcon
  rw [Bool.not_eq_false] at hcon
  have e1 : List.take pat.length s = pat := (isPrefixOf_eq_take pat s).mp hpre
  have e2 : List.take pat.length (List.drop j s) = pat :=
    (isPrefixOf_eq_take pat (List.drop j s)).mp hcon
  have e3 : List.drop j pat = List.take (pat.length - j) (List.drop j s) := by
    rw [List.take_drop]
    have hjL2 : j + (pat.length - j) = pat.length := by omega
    rw [hjL2, e1]
  have e4 : List.take (pat.length - j) pat = List.take (pat.length - j) (List.drop j s) := by
    have h7 : ∀ (k : Nat), k ≤ pat.length →
        List.take k pat = List.take k (List.drop j s) := by
      intro k hk
      rw [← e2, List.take_take, Nat.min_eq_left hk]
    exact h7 (pat.length - j) (by omega)
  have e5 : List.drop j pat = List.take (pat.length - j) pat := by rw [e3, e4]
  have hb := hbf
  unfold borderFreeB at hb
  rw [List.all_eq_true] at hb
  have h6 := hb j (List.mem_range.mpr hjL)
  have hj0f : (j == 0) = false := by simp; omega
  rw [hj0f, Bool.false_or, Bool.not_eq_true', beq_eq_false_iff_ne] at h6
  exact h6 e5

theorem countPos_nil (pat : List Char) : countPos pat [] = 0 := by
  simp [countPos]

theorem countPos_cons (pat : List Char) (c : Char) (rest : List Char) :
    countPos pat (c :: rest) =
      (if pat.isPrefixOf (c :: rest) then 1 else 0) + countPos pat rest := by
  unfold countPos
  rw [List.length_cons, List.range_succ_eq_map, List.countP_cons, List.countP_map]
  have hf : ((fun i => pat.isPrefixOf (List.drop i (c :: rest))) ∘ Nat.succ)
      = (fun i => pat.isPrefixOf (List.drop i rest)) := by
    funext i
    simp [Function.comp, List.drop_succ_cons]
  rw [hf]
  simp only [List.drop_zero]
  exact Nat.add_comm _ _

theorem countPos_split (pat : List Char) (hp0 : pat ≠ []) :
    ∀ (m : Nat) (s : List Char),
      countPos pat s =
        (List.range m).countP (fun j => pat.isPrefixOf (List.drop j s))
          + countPos pat (List.drop m s) := by
  intro m
  induction m with
  | zero => intro s; simp [List.drop_zero]
  | succ m ih =>
    intro s
    rw [ih s, List.range_succ, List.countP_append]
    have hsing : (List.countP (fun j => pat.isPrefixOf (List.drop j s)) [m])
        = if pat.isPrefixOf (List.drop m s) then 1 else 0 := by
      simp [List.countP_cons]
    cases hdm : List.drop m s with
    | nil =>
      have h1 : List.drop (m + 1) s = [] := by
        rw [← List.drop_drop, hdm]
        rfl
      have hfalse : pat.isPrefixOf ([] : List Char) = false := by
        cases pat with
        | nil => exact absurd rfl hp0
        | cons a as => rfl
      rw [hsing, hdm, h1, hfalse, countPos_nil]
      simp
    | cons c2 rest2 =>
      have h1 : List.drop (m + 1) s = rest2 := by
        rw [← List.drop_drop, hdm, List.drop_succ_cons, List.drop_zero]
      rw [hsing, hdm, h1, countPos_cons]
      omega

theorem countPos_drop (pat : List Char) (hp0 : pat ≠ []) (s : List Char)
    (hpre : pat.isPrefixOf s = true)
    (hno : ∀ j, 0 < j → j < pat.length → pat.isPrefixOf (List.drop j s) = false) :
    countPos pat s = countPos pat (List.drop pat.length s) + 1 := by
  rw [countPos_split pat hp0 pat.length s]
  have hcount : (List.range pat.length).countP (fun j => pat.isPrefixOf (List.drop j s)) = 1 := by
    have h1 : pat.length = (pat.length - 1) + 1 := by
      have := List.length_pos.mpr hp0; omega
    rw [h1, List.range_succ_eq_map, List.countP_cons, List.countP_map]
    have hz : (List.range (pat.length - 1)).countP
        ((fun j => pat.isPrefixOf (List.drop j s)) ∘ Nat.succ) = 0 := by
      rw [List.countP_eq_zero]
      intro a ha
      rw [List.mem_range] at ha
      simp only [Function.comp_apply]
      rw [hno (a + 1) (by omega) (by omega)]
      simp
    rw [hz]
    simp [List.drop_zero, hpre]
  rw [hcount]
  omega

theorem countOccAux_skip (pat : List Char) : ∀ (s : List Char) (k : Nat),
    countOccAux pat s k = countOccAux pat (List.drop k s) 0 := by
  intro s
  induction s with
  | nil =>
    intro k
    rw [List.drop_nil]
    rfl
  | cons c rest ih =>
    intro k
    cases k with
    | zero => rw [List.drop_zero]
    | succ k2 =>
      rw [List.drop_succ_cons]
      exact ih k2

theorem countOcc_eq_countPos (pat : List Char) (hp0 : pat ≠ [])
    (hbf : borderFreeB pat = true) : ∀ (s : List Char), countOcc pat s = countPos pat s := by
  have hpe : pat.isEmpty = false := by
    cases pat with
    | nil => exact absurd rfl hp0
    | cons a as => rfl
  have hlp : 0 < pat.length := List.length_pos.mpr hp0
  have main : ∀ (n : Nat) (s : List Char), s.length ≤ n → countOcc pat s = countPos pat s := by
    intro n
    induction n with
    | zero =>
      intro s hs
      have h0 : s = [] := List.length_eq_zero.mp (Nat.le_zero.mp hs)
      subst h0
      simp [countOcc, countOccAux, hpe, countPos]
    | succ n ih =>
      intro s hs
      cases s with
      | nil => simp [countOcc, countOccAux, hpe, countPos]
      | cons c rest =>
        by_cases hpre : pat.isPrefixOf (c :: rest) = true
        · have step : countOcc pat (c :: rest)
              = countOccAux pat rest (pat.length - 1) + 1 := by
            show countOccAux pat (c :: rest) 0 = _
            simp [countOccAux, hpre]
          rw [step, countOccAux_skip]
          have hd : List.drop (pat.length - 1) rest = List.drop pat.length (c :: rest) := by
            have h1 : pat.length = (pat.length - 1) + 1 := by omega
            conv_rhs => rw [h1, List.drop_succ_cons]
          rw [hd]
          have hih : countOccAux pat (List.drop pat.length (c :: rest)) 0
              = countPos pat (List.drop pat.length (c :: rest)) := by
            have hlen : (List.drop pat.length (c :: rest)).length ≤ n := by
              simp only [List.length_drop, List.length_cons] at *
              omega
            exact ih _ hlen
          rw [hih]
          rw [countPos_drop pat hp0 (c :: rest) hpre
            (fun j hj1 hj2 => noOverlap_of_borderFree pat hbf (c :: rest) hpre j hj1 hj2)]
        · have step : countOcc pat (c :: rest) = countOccAux pat rest 0 := by
            show countOccAux pat (c :: rest) 0 = _
            simp [countOccAux, hpre]
          rw [step]
          have hih : countOccAux pat rest 0 = countPos pat rest := by
            have hlen : rest.length ≤ n := by
              simp only [List.length_cons] at hs
              omega
            exact ih rest hlen
          rw [hih, countPos_cons, if_neg hpre]
          omega
  intro s
  exact main s.length s le_rfl

/-! ## Lemmas about the candidate list and the selector -/

theorem find_eq_of_build {files : List FSEntry} {cands : List Cand}
    (h : buildCandidates files = Except.ok cands) :
    find_main_latex_file files = Except.ok (((sortCands cands).head?).map Cand.path) := by
  unfold find_main_latex_file
  rw [h]

theorem bc_mem : ∀ (files : List FSEntry) (cands : List Cand),
    buildCandidates files = Except.ok cands → ∀ c ∈ cands,
    ∃ e ∈ files, ∃ s, e.content = Except.ok s ∧
      strEndsWith e.name ".tex" = true ∧ c = texCand e s := by
  intro files
  induction files with
  | nil =>
    intro cands hb c hc
    simp only [buildCandidates, Except.ok.injEq] at hb
    subst hb
    simp at hc
  | cons e rest ih =>
    intro cands hb c hc
    rw [buildCandidates] at hb
    by_cases htex : strEndsWith e.name ".tex" = true
    · rw [if_pos htex] at hb
      cases hcont : e.content with
      | error ex => rw [hcont] at hb; simp at hb
      | ok s =>
        rw [hcont] at hb
        cases hrest : buildCandidates rest with
        | error ex => rw [hrest] at hb; simp at hb
        | ok cs =>
          rw [hrest] at hb
          simp only [Except.ok.injEq] at hb
          subst hb
          rcases List.mem_cons.mp hc with h | h
          · exact ⟨e, List.mem_cons_self e rest, s, hcont, htex, h⟩
          · obtain ⟨e2, he2, s2, hs2, ht2, hc2⟩ := ih cs hrest c h
            exact ⟨e2, List.mem_cons_of_mem e he2, s2, hs2, ht2, hc2⟩
    · rw [if_neg htex] at hb
      obtain ⟨e2, he2, s2, hs2, ht2, hc2⟩ := ih cands hb c hc
      exact ⟨e2, List.mem_cons_of_mem e he2, s2, hs2, ht2, hc2⟩

theorem bc_noTex : ∀ (files : List FSEntry),
    (∀ e ∈ files, strEndsWith e.name ".tex" = false) →
    buildCandidates files = Except.ok [] := by
  intro files
  induction files with
  | nil => intro _; rfl
  | cons e rest ih =>
    intro h
    rw [buildCandidates,
      if_neg (by rw [h e (List.mem_cons_self e rest)]; simp)]
    exact ih (fun d hd => h d (List.mem_cons_of_mem e hd))

theorem bc_ok_of_readable : ∀ (files : List FSEntry),
    (∀ d ∈ files, strEndsWith d.name ".tex" = true → ∃ s, d.content = Except.ok s) →
    ∃ cands, buildCandidates files = Except.ok cands ∧
      ∀ e ∈ files, strEndsWith e.name ".tex" = true →
        ∀ s, e.content = Except.ok s → texCand e s ∈ cands := by
  intro files
  induction files with
  | nil =>
    intro _
    exact ⟨[], rfl, by intro e he; simp at he⟩
  | cons e rest ih =>
    intro h
    obtain ⟨cs, hcs, hmem⟩ := ih (fun d hd ht => h d (List.mem_cons_of_mem e hd) ht)
    by_cases htex : strEndsWith e.name ".tex" = true
    · obtain ⟨s, hs⟩ := h e (List.mem_cons_self e rest) htex
      refine ⟨texCand e s :: cs, ?_, ?_⟩
      · rw [buildCandidates, if_pos htex, hs, hcs]
      · intro e2 he2 ht2 s2 hs2
        rcases List.mem_cons.mp he2 with h2 | h2
        · subst h2
          rw [hs] at hs2
          simp only [Except.ok.injEq] at hs2
          subst hs2
          exact List.mem_cons_self _ _
        · exact List.mem_cons_of_mem _ (hmem e2 h2 ht2 s2 hs2)
    · refine ⟨cs, ?_, ?_⟩
      · rw [buildCandidates, if_neg htex]
        exact hcs
      · intro e2 he2 ht2 s2 hs2
        rcases List.mem_cons.mp he2 with h2 | h2
        · subst h2; exact absurd ht2 htex
        · exact hmem e2 h2 ht2 s2 hs2

theorem bc_error_of_bad_read : ∀ (l1 : List FSEntry) (e : FSEntry) (l2 : List FSEntry)
    (ex : PyExn),
    (∀ d ∈ l1, strEndsWith d.name ".tex" = true → ∃ s, d.content = Except.ok s) →
    strEndsWith e.name ".tex" = true → e.content = Except.error ex →
    buildCandidates (l1 ++ e :: l2) = Except.error ex := by
  intro l1
  induction l1 with
  | nil =>
    intro e l2 ex _ htex herr
    rw [List.nil_append, buildCandidates, if_pos htex, herr]
  | cons d l1 ih =>
    intro e l2 ex hok htex herr
    have ih2 := ih e l2 ex (fun d2 hd2 h2 => hok d2 (List.mem_cons_of_mem d hd2) h2) htex herr
    rw [List.cons_append, buildCandidates]
    by_cases hd : strEndsWith d.name ".tex" = true
    · obtain ⟨s, hs⟩ := hok d (List.mem_cons_self d l1) hd
      rw [if_pos hd, hs, ih2]
    · rw [if_neg hd]
      exact ih2

/-! ## Lemmas about the run after download -/

theorem afterFind_procs (arxiv_id : String) (output_file : Option String)
    (fmt temp_dir cwd : String) (cst : Nat) (printed : List Msg)
    (source_contents : Option String) :
    ∀ (r : Except PyExn (Option String)),
      (afterFind arxiv_id output_file fmt temp_dir cwd cst printed source_contents r).procs ≠ [] →
      (afterFind arxiv_id output_file fmt temp_dir cwd cst printed source_contents r).result
          = RunResult.exited 0 ∧
      (afterFind arxiv_id output_file fmt temp_dir cwd cst printed source_contents r).stderr
          = (if pyTruthy output_file then [Msg.converted arxiv_id (output_file.getD "")]
             else [Msg.fetched arxiv_id]) := by
  intro r
  cases r with
  | error e => intro h; simp [afterFind] at h
  | ok found =>
    by_cases hm : pyTruthy (pyOrStr found source_contents) = true
    · by_cases ho : pyTruthy output_file = true
      · intro _; simp [afterFind, hm, ho]
      · intro _
        simp only [Bool.not_eq_true] at ho
        simp [afterFind, hm, ho]
    · intro h
      simp only [Bool.not_eq_true] at hm
      simp [afterFind, hm] at h

theorem afterDownload_procs (arxiv_id : String) (output_file : Option String)
    (fmt temp_dir cwd : String) (cst : Nat) (dl : DlOut) :
    (afterDownload arxiv_id output_file fmt temp_dir cwd cst dl).procs ≠ [] →
    (afterDownload arxiv_id output_file fmt temp_dir cwd cst dl).result
        = RunResult.exited 0 ∧
    (afterDownload arxiv_id output_file fmt temp_dir cwd cst dl).stderr
        = (if pyTruthy output_file then [Msg.converted arxiv_id (output_file.getD "")]
           else [Msg.fetched arxiv_id]) := by
  obtain ⟨printed, result, extracted⟩ := dl
  cases result with
  | error e =>
    cases e with
    | httpError => intro h; simp [afterDownload] at h
    | tarReadError => intro h; simp [afterDownload] at h
    | decodeError => intro h; simp [afterDownload] at h
  | ok sc =>
    intro h
    exact afterFind_procs arxiv_id output_file fmt temp_dir cwd cst printed sc _ h

/-! ## Claim theorems -/

/-- C1: for every directory whose recursive scan yields a non-empty candidate
list, the selector returns a candidate whose pair
(name-signal + declaration-signal, inclusion-count) is maximal under
descending lexicographic order: any candidate with both boolean signals true
outranks every candidate with at most one true, and among candidates with the
same boolean sum one with strictly greater inclusion-count is preferred. -/
theorem selector_returns_lex_max (files : List FSEntry) (cands : List Cand)
    (hb : buildCandidates files = Except.ok cands) (hne : cands ≠ []) :
    ∃ c, c ∈ cands ∧ find_main_latex_file files = Except.ok (some c.path) ∧
      (∀ d ∈ cands, pairLe (candKey d) (candKey c) = true) ∧
      (∀ d ∈ cands, d.h1 = true → d.h2 = true → (c.h1 = true ∧ c.h2 = true)) ∧
      (∀ d ∈ cands, boolSum d = boolSum c → d.h3 ≤ c.h3) := by
  obtain ⟨c, hc1, hc2, hc3⟩ := sortCands_head_max cands hne
  refine ⟨c, hc2, ?_, hc3, ?_, ?_⟩
  · rw [find_eq_of_build hb, hc1]
    rfl
  · intro d hd hd1 hd2
    have hle := hc3 d hd
    simp only [pairLe_iff, candKey] at hle
    have hbd : boolSum d = 2 := by simp [boolSum, hd1, hd2]
    have hbc2 : boolSum c ≤ 2 := by
      unfold boolSum
      cases c.h1 <;> cases c.h2 <;> simp
    have hbc : boolSum c = 2 := by omega
    cases hh1 : c.h1 <;> cases hh2 : c.h2
    · exfalso; simp [boolSum, hh1, hh2] at hbc
    · exfalso; simp [boolSum, hh1, hh2] at hbc
    · exfalso; simp [boolSum, hh1, hh2] at hbc
    · exact ⟨rfl, rfl⟩
  · intro d hd he
    have hle := hc3 d hd
    simp only [pairLe_iff, candKey] at hle
    omega

/-- Directory fixture for the C1 witness. -/
def wFiles1 : List FSEntry :=
  [⟨"/w", "extra.tex", Except.ok ""⟩,
   ⟨"/w", "main.tex", Except.ok "\\documentclass \\input a"⟩]

/-- Candidate list fixture for the C1 witness. -/
def wCands1 : List Cand :=
  [⟨"/w/extra.tex", false, false, 0⟩, ⟨"/w/main.tex", true, true, 1⟩]

/-- C1 witness: the ranking theorem evaluated on a concrete directory. -/
theorem selector_returns_lex_max_witness :
    ∃ c, c ∈ wCands1 ∧ find_main_latex_file wFiles1 = Except.ok (some c.path) ∧
      (∀ d ∈ wCands1, pairLe (candKey d) (candKey c) = true) ∧
      (∀ d ∈ wCands1, d.h1 = true → d.h2 = true → (c.h1 = true ∧ c.h2 = true)) ∧
      (∀ d ∈ wCands1, boolSum d = boolSum c → d.h3 ≤ c.h3) :=
  selector_returns_lex_max wFiles1 wCands1 (by decide) (by decide)

/-- C2: the inclusion-count signal of every candidate equals the number of
occurrences of the substring starting a cross-file input directive plus the
number of occurrences of the substring starting a cross-file include
directive in the text that was read for it. -/
theorem candidate_inclusion_count (files : List FSEntry) (cands : List Cand) (c : Cand)
    (hb : buildCandidates files = Except.ok cands) (hc : c ∈ cands) :
    ∃ e ∈ files, ∃ s, e.content = Except.ok s ∧ c.path = joinPath e.root e.name ∧
      c.h3 = countPos "\\input".toList s.toList
        + countPos "\\include".toList s.toList := by
  obtain ⟨e, he, s, hs, htex, hcand⟩ := bc_mem files cands hb c hc
  refine ⟨e, he, s, hs, by rw [hcand]; rfl, ?_⟩
  rw [hcand]
  show countOcc "\\input".toList s.toList + countOcc "\\include".toList s.toList = _
  rw [countOcc_eq_countPos "\\input".toList (by decide) (by decide),
    countOcc_eq_countPos "\\include".toList (by decide) (by decide)]

/-- Directory fixture for the C2 witness. -/
def wFiles2 : List FSEntry :=
  [⟨"/x", "paper.tex", Except.ok "\\input one \\include two \\include three"⟩]

/-- Candidate fixture for the C2 witness. -/
def wCand2 : Cand := ⟨"/x/paper.tex", false, false, 3⟩

/-- C2 witness: the inclusion-count theorem evaluated on a concrete file. -/
theorem candidate_inclusion_count_witness :
    ∃ e ∈ wFiles2, ∃ s, e.content = Except.ok s ∧ wCand2.path = joinPath e.root e.name ∧
      wCand2.h3 = countPos "\\input".toList s.toList
        + countPos "\\include".toList s.toList :=
  candidate_inclusion_count wFiles2 [wCand2] wCand2 (by decide) (by decide)

/-- C3: when the scan yields no file ending in `.tex` the selector returns
`None`; when it yields at least one such file (all of them readable) it
returns some path from the candidate list. -/
theorem selector_none_iff_no_candidates (files : List FSEntry) :
    ((∀ e ∈ files, strEndsWith e.name ".tex" = false) →
      find_main_latex_file files = Except.ok none) ∧
    (∀ e ∈ files, strEndsWith e.name ".tex" = true →
      (∀ d ∈ files, strEndsWith d.name ".tex" = true → ∃ s, d.content = Except.ok s) →
      ∃ p cands, buildCandidates files = Except.ok cands ∧ p ∈ cands.map Cand.path ∧
        find_main_latex_file files = Except.ok (some p)) := by
  constructor
  · intro h
    rw [find_eq_of_build (bc_noTex files h)]
    rfl
  · intro e he htex hread
    obtain ⟨cands, hcands, hmem⟩ := bc_ok_of_readable files hread
    obtain ⟨s, hs⟩ := hread e he htex
    have hne : cands ≠ [] := by
      intro h0
      have := hmem e he htex s hs
      rw [h0] at this
      simp at this
    obtain ⟨c, hc1, hc2, _⟩ := sortCands_head_max cands hne
    refine ⟨c.path, cands, hcands, List.mem_map_of_mem Cand.path hc2, ?_⟩
    rw [find_eq_of_build hcands, hc1]
    rfl

/-- Directory fixture without candidate files, for the C3 witness. -/
def wFiles3a : List FSEntry := [⟨"/z", "readme.md", Except.ok ""⟩]

/-- Directory fixture with one candidate file, for the C3 witness. -/
def wFiles3b : List FSEntry := [⟨"/z", "doc.tex", Except.ok "\\documentclass"⟩]

/-- C3 witness: the empty/non-empty theorem evaluated on concrete
directories. -/
theorem selector_none_iff_no_candidates_witness :
    find_main_latex_file wFiles3a = Except.ok none ∧
    (∃ p cands, buildCandidates wFiles3b = Except.ok cands ∧ p ∈ cands.map Cand.path ∧
      find_main_latex_file wFiles3b = Except.ok (some p)) :=
  ⟨(selector_none_iff_no_candidates wFiles3a).1 (by decide),
   (selector_none_iff_no_candidates wFiles3b).2 ⟨"/z", "doc.tex", Except.ok "\\documentclass"⟩
     (by decide) (by decide)
     (by
       intro d hd _
       simp only [wFiles3b, List.mem_singleton] at hd
       subst hd
       exact ⟨"\\documentclass", rfl⟩)⟩

/-- C4: the sort is stable, so when several candidates share the maximal
key the selector returns the one discovered first during the walk: if every
candidate before `c` has a strictly smaller key and every candidate after
`c` has a key at most `c`'s, the selector returns `c`'s path. -/
theorem selector_stable_tie_break (files : List FSEntry) (cands l1 l2 : List Cand)
    (c : Cand) (hb : buildCandidates files = Except.ok cands)
    (hsplit : cands = l1 ++ c :: l2)
    (h1 : ∀ d ∈ l1, pairLt (candKey d) (candKey c) = true)
    (h2 : ∀ d ∈ l2, pairLe (candKey d) (candKey c) = true) :
    find_main_latex_file files = Except.ok (some c.path) := by
  rw [find_eq_of_build hb, hsplit, sortCands_head_firstMax l1 c l2 h1 h2]
  rfl

/-- Directory fixture with two equally ranked files, for the C4 witness. -/
def wFiles4 : List FSEntry :=
  [⟨"/t", "alpha.tex", Except.ok "\\documentclass"⟩,
   ⟨"/t", "beta.tex", Except.ok "\\documentclass"⟩]

/-- C4 witness: with two candidates of equal key, the first discovered is
returned. -/
theorem selector_stable_tie_break_witness :
    find_main_latex_file wFiles4 = Except.ok (some "/t/alpha.tex") :=
  selector_stable_tie_break wFiles4
    [⟨"/t/alpha.tex", false, true, 0⟩, ⟨"/t/beta.tex", false, true, 0⟩]
    [] [⟨"/t/beta.tex", false, true, 0⟩] ⟨"/t/alpha.tex", false, true, 0⟩
    (by decide) rfl (by decide) (by decide)

/-- C5: when the fetched payload is not a readable archive (the tar open
raises a parse error), the run prints an error naming the identifier and
exits with status 1. -/
theorem archive_error_exits_one (arxiv_id : String) (out : Option String)
    (fmt td cwd : String) (es : List FSEntry) (cst : Nat) :
    (mainRun arxiv_id out fmt td cwd (FetchOutcome.response 200 false es) cst).result
        = RunResult.exited 1 ∧
    ∃ m ∈ (mainRun arxiv_id out fmt td cwd (FetchOutcome.response 200 false es) cst).stdout,
      msgNamesId m arxiv_id = true := by
  refine ⟨rfl, ⟨Msg.errorCouldntFetch arxiv_id, ?_, ?_⟩⟩
  · exact List.mem_cons_self _ _
  · simp [msgNamesId]

/-- C6 counterexample: a transport error (`HTTPError`) is not caught by the
top-level handler of `main`; at this concrete input the run terminates with
the exception propagating uncaught to the interpreter, refuting the claim
that every fetch/extract error is caught once at the top level. -/
theorem transport_error_uncaught_cex :
    (mainRun "2101.00001" none "markdown" "/tmp/workdir" "/home/user"
        FetchOutcome.httpError 0).result = RunResult.uncaught PyExn.httpError := rfl

/-- C6 amended: archive-parse errors are caught once at the top level and
the run exits with status 1 through that handler, while transport errors
are reported inside `fetch_url`, re-raised, and propagate uncaught out of
`main`. -/
theorem fetch_errors_propagation (arxiv_id : String) (out : Option String)
    (fmt td cwd : String) (es : List FSEntry) (cst : Nat) :
    ((mainRun arxiv_id out fmt td cwd (FetchOutcome.response 200 false es) cst).result
        = RunResult.exited 1) ∧
    ((mainRun arxiv_id out fmt td cwd FetchOutcome.httpError cst).result
        = RunResult.uncaught PyExn.httpError) ∧
    ((mainRun arxiv_id out fmt td cwd FetchOutcome.httpError cst).stdout
        = [Msg.failedDownload]) :=
  ⟨rfl, rfl, rfl⟩

/-- C7: the exit status of the external converter is never inspected: the
whole observable run outcome is identical for any two converter statuses,
and a run that reaches the conversion step (some subprocess was invoked)
completes with exit status 0. -/
theorem converter_status_ignored (arxiv_id : String) (out : Option String)
    (fmt td cwd : String) (f : FetchOutcome) (s1 s2 : Nat) :
    mainRun arxiv_id out fmt td cwd f s1 = mainRun arxiv_id out fmt td cwd f s2 ∧
    ((mainRun arxiv_id out fmt td cwd f s1).procs ≠ [] →
      (mainRun arxiv_id out fmt td cwd f s1).result = RunResult.exited 0) := by
  constructor
  · rfl
  · intro h
    exact (afterDownload_procs arxiv_id out fmt td cwd s1
      (download_arxiv_source arxiv_id td f) h).1

/-- Network fixture for the C7 witness. -/
def wFetch7 : FetchOutcome :=
  FetchOutcome.response 200 true [⟨"/t7", "main.tex", Except.ok "\\documentclass"⟩]

/-- C7 witness: at a concrete input that reaches conversion, two different
converter statuses give the same outcome and the run exits 0. -/
theorem converter_status_ignored_witness :
    mainRun "a7" none "markdown" "/t7" "/c7" wFetch7 0
        = mainRun "a7" none "markdown" "/t7" "/c7" wFetch7 5 ∧
    (mainRun "a7" none "markdown" "/t7" "/c7" wFetch7 0).result = RunResult.exited 0 :=
  ⟨(converter_status_ignored "a7" none "markdown" "/t7" "/c7" wFetch7 0 5).1,
   (converter_status_ignored "a7" none "markdown" "/t7" "/c7" wFetch7 0 5).2 (by decide)⟩

/-- C8: when no output file is given (absent or empty), the converter is
invoked without an `-o` destination argument — the argument list is exactly
the base list, so no on-disk output path is constructed and the content
streams to standard output — and the status message of such a run goes to
standard error. -/
theorem no_output_file_streams_stdout (source_file working_dir fmt cwd arxiv_id td : String)
    (out : Option String) (f : FetchOutcome) (cst : Nat) (h : pyTruthy out = false) :
    convert_to_markdown source_file working_dir out fmt cwd
        = ["pandoc", "-s", source_file, "-t", fmt, "--wrap=none"] ∧
    ((mainRun arxiv_id out fmt td cwd f cst).procs ≠ [] →
      (mainRun arxiv_id out fmt td cwd f cst).stderr = [Msg.fetched arxiv_id]) := by
  constructor
  · simp [convert_to_markdown, h]
  · intro hp
    have h2 := (afterDownload_procs arxiv_id out fmt td cwd cst
      (download_arxiv_source arxiv_id td f) hp).2
    rw [h] at h2
    simp only [Bool.false_eq_true, if_false] at h2
    exact h2

/-- Network fixture for the C8 witness. -/
def wFetch8 : FetchOutcome :=
  FetchOutcome.response 200 true [⟨"/q", "m8main.tex", Except.ok "\\documentclass"⟩]

/-- C8 witness: concrete run without an output file — base argument list
and the status message on standard error. -/
theorem no_output_file_streams_stdout_witness :
    convert_to_markdown "/q/m8main.tex" "/q" none "markdown" "/hc"
        = ["pandoc", "-s", "/q/m8main.tex", "-t", "markdown", "--wrap=none"] ∧
    (mainRun "a8" none "markdown" "/q" "/hc" wFetch8 3).stderr = [Msg.fetched "a8"] :=
  ⟨(no_output_file_streams_stdout "/q/m8main.tex" "/q" "markdown" "/hc" "a8" "/q"
      none wFetch8 3 rfl).1,
   (no_output_file_streams_stdout "/q/m8main.tex" "/q" "markdown" "/hc" "a8" "/q"
      none wFetch8 3 rfl).2 (by decide)⟩

/-- C9: a candidate `.tex` file whose text cannot be read makes the whole
selector invocation fail with that exception: no candidate is skipped and
no absent result is substituted. -/
theorem read_failure_propagates (l1 : List FSEntry) (e : FSEntry) (l2 : List FSEntry)
    (ex : PyExn)
    (hok : ∀ d ∈ l1, strEndsWith d.name ".tex" = true → ∃ s, d.content = Except.ok s)
    (htex : strEndsWith e.name ".tex" = true) (herr : e.content = Except.error ex) :
    find_main_latex_file (l1 ++ e :: l2) = Except.error ex ∧
    ∀ o, find_main_latex_file (l1 ++ e :: l2) ≠ Except.ok o := by
  have hf : find_main_latex_file (l1 ++ e :: l2) = Except.error ex := by
    unfold find_main_latex_file
    rw [bc_error_of_bad_read l1 e l2 ex hok htex herr]
  refine ⟨hf, ?_⟩
  intro o hco
  rw [hf] at hco
  exact Except.noConfusion hco

/-- C9 witness: a directory with one readable and one unreadable `.tex`
file makes the selector fail with the read exception. -/
theorem read_failure_propagates_witness :
    find_main_latex_file
        ([⟨"/d", "intro.tex", Except.ok "x"⟩]
          ++ ⟨"/d", "bad.tex", Except.error PyExn.decodeError⟩ :: [])
      = Except.error PyExn.decodeError ∧
    ∀ o, find_main_latex_file
        ([⟨"/d", "intro.tex", Except.ok "x"⟩]
          ++ ⟨"/d", "bad.tex", Except.error PyExn.decodeError⟩ :: [])
      ≠ Except.ok o :=
  read_failure_propagates [⟨"/d", "intro.tex", Except.ok "x"⟩]
    ⟨"/d", "bad.tex", Except.error PyExn.decodeError⟩ [] PyExn.decodeError
    (by
      intro d hd _
      rw [List.mem_singleton] at hd
      subst hd
      exact ⟨"x", rfl⟩)
    (by decide) rfl

/-- C10: a successful download returns the path `output_dir/{id}.tar.gz`
but writes only the archive entries, never a file at the returned path
itself; when additionally no entry ends in `.tex`, the selector over the
extracted entries returns `None`, so the fallback value is a path to a file
that was never written. -/
theorem download_writes_only_entries (arxiv_id output_dir : String) (es : List FSEntry) :
    (download_arxiv_source arxiv_id output_dir (FetchOutcome.response 200 true es)).result
        = Except.ok (some (joinPath output_dir (arxiv_id ++ ".tar.gz"))) ∧
    writtenPaths (download_arxiv_source arxiv_id output_dir (FetchOutcome.response 200 true es))
        = es.map (fun e => joinPath e.root e.name) ∧
    ((∀ e ∈ es, joinPath e.root e.name ≠ joinPath output_dir (arxiv_id ++ ".tar.gz")) →
      joinPath output_dir (arxiv_id ++ ".tar.gz") ∉
        writtenPaths (download_arxiv_source arxiv_id output_dir
          (FetchOutcome.response 200 true es))) ∧
    ((∀ e ∈ es, strEndsWith e.name ".tex" = false) →
      find_main_latex_file
          (download_arxiv_source arxiv_id output_dir
            (FetchOutcome.response 200 true es)).extracted
        = Except.ok none) := by
  refine ⟨rfl, rfl, ?_, ?_⟩
  · intro h hmem
    have hmem2 : joinPath output_dir (arxiv_id ++ ".tar.gz")
        ∈ es.map (fun e => joinPath e.root e.name) := hmem
    obtain ⟨e, he, heq⟩ := List.mem_map.mp hmem2
    exact h e he heq
  · intro h
    have hbc := bc_noTex es h
    show find_main_latex_file es = Except.ok none
    rw [find_eq_of_build hbc]
    rfl

/-- C10 witness: a concrete archive with one non-`.tex` entry — the
returned tarball path is not among the written files and the selector
returns `None`. -/
theorem download_writes_only_entries_witness :
    (download_arxiv_source "a10" "/o"
        (FetchOutcome.response 200 true [⟨"/o", "fig.png", Except.ok ""⟩])).result
        = Except.ok (some "/o/a10.tar.gz") ∧
    writtenPaths (download_arxiv_source "a10" "/o"
        (FetchOutcome.response 200 true [⟨"/o", "fig.png", Except.ok ""⟩]))
        = ["/o/fig.png"] ∧
    "/o/a10.tar.gz" ∉ writtenPaths (download_arxiv_source "a10" "/o"
        (FetchOutcome.response 200 true [⟨"/o", "fig.png", Except.ok ""⟩])) ∧
    find_main_latex_file (download_arxiv_source "a10" "/o"
        (FetchOutcome.response 200 true [⟨"/o", "fig.png", Except.ok ""⟩])).extracted
        = Except.ok none :=
  ⟨(download_writes_only_entries "a10" "/o" [⟨"/o", "fig.png", Except.ok ""⟩]).1,
   (download_writes_only_entries "a10" "/o" [⟨"/o", "fig.png", Except.ok ""⟩]).2.1,
   (download_writes_only_entries "a10" "/o" [⟨"/o", "fig.png", Except.ok ""⟩]).2.2.1
     (by decide),
   (download_writes_only_entries "a10" "/o" [⟨"/o", "fig.png", Except.ok ""⟩]).2.2.2
     (by decide)⟩

